import Mathlib

/-!
Shallow embedding of the TemplateParser Go package: a line tokenizer driven
by an ordered table of anchored regular-expression matchers, an ObjectType
tagged value, and the ParseLine template validator.  Go strings are modelled
as `List Char` (the package treats input as single-byte ASCII), Go `uint64`
values as `Nat` with explicit bounds where overflow matters, and Go runtime
panics (slice index out of range, failed interface type assertions) as an
explicit `panic` result or `none`.
-/

namespace TemplateParser

/-! ### Character classes of the regular expressions

Each Bool predicate transcribes one character class from the regex table in
`Tokenize`.  Character codes: 0-9 is 48..57, A-Z is 65..90, a-z is 97..122,
underscore is 95.  The source classes `[a-zA-z...]` (lower-case final z) are
transcribed literally: the range A-z covers codes 65..122, which also
includes the six punctuation codes 91..96. -/

/-- Class `[a-zA-Z]`: a strictly alphabetic character. -/
def isGoAlpha (c : Char) : Bool :=
  (97 ≤ c.toNat && c.toNat ≤ 122) || (65 ≤ c.toNat && c.toNat ≤ 90)

/-- Class `[a-zA-z]` as written in the source (capital A to lower z):
the union of codes 97..122 and 65..122. -/
def isTypoAlpha (c : Char) : Bool :=
  (97 ≤ c.toNat && c.toNat ≤ 122) || (65 ≤ c.toNat && c.toNat ≤ 122)

/-- Class `[0-9a-fA-F]`: a hexadecimal digit. -/
def isHexGo (c : Char) : Bool :=
  (48 ≤ c.toNat && c.toNat ≤ 57) ||
    (97 ≤ c.toNat && c.toNat ≤ 102) || (65 ≤ c.toNat && c.toNat ≤ 70)

/-- Class `[a-zA-Z0-9_]`: tail characters of an identifier. -/
def isIdentTail (c : Char) : Bool :=
  isGoAlpha c || (48 ≤ c.toNat && c.toNat ≤ 57) || c = '_'

/-- Class `[a-zA-z0-9_]` as written in the macro pattern (with the A-z
range), the tail characters of a macro reference. -/
def isMacroTail (c : Char) : Bool :=
  isTypoAlpha c || (48 ≤ c.toNat && c.toNat ≤ 57) || c = '_'

/-! ### The anchored pattern matchers

Each matcher models one `regexp.FindStringSubmatch` call on the remaining
input, anchored with `^`.  A successful match returns the matched text
(`matches[0]`) and the rest of the input after it. -/

/-- Pattern 1, `^"([^"]*)"`: a double-quoted string, quotes included in the
matched text. -/
def matchQuoted (input : List Char) : Option (List Char × List Char) :=
  match input with
  | q :: rest =>
      if q = '"' then
        match rest.dropWhile (fun c => c != '"') with
        | _ :: rest2 =>
            some ('"' :: rest.takeWhile (fun c => c != '"') ++ ['"'], rest2)
        | [] => none
      else none
  | [] => none

/-- Pattern 2, `^@[a-zA-Z][a-zA-z0-9_]*`: a macro reference. -/
def matchMacroRef (input : List Char) : Option (List Char × List Char) :=
  match input with
  | m :: c :: rest =>
      if m = '@' && isGoAlpha c then
        some (m :: c :: rest.takeWhile isMacroTail, rest.dropWhile isMacroTail)
      else none
  | _ => none

/-- Pattern 3, `^[a-zA-Z][a-zA-z][a-zA-Z0-9_]*`: an identifier.  The second
character uses the `[a-zA-z]` class exactly as the source writes it. -/
def matchIdent (input : List Char) : Option (List Char × List Char) :=
  match input with
  | c1 :: c2 :: rest =>
      if isGoAlpha c1 && isTypoAlpha c2 then
        some (c1 :: c2 :: rest.takeWhile isIdentTail, rest.dropWhile isIdentTail)
      else none
  | _ => none

/-- Patterns 4-7, `^[0-9a-fA-F]{lo,hi}`: a greedy bounded hex run.  The
greedy quantifier takes `min L hi` characters of the maximal hex prefix of
length `L`, provided `lo ≤ L`. -/
def matchHex (lo hi : Nat) (input : List Char) : Option (List Char × List Char) :=
  if lo ≤ (input.takeWhile isHexGo).length then
    some (input.take (min (input.takeWhile isHexGo).length hi),
      input.drop (min (input.takeWhile isHexGo).length hi))
  else none

/-- Pattern 8, `^r[0-9a-fA-F]*`: the register marker followed by a greedy,
possibly empty hex run. -/
def matchRegister (input : List Char) : Option (List Char × List Char) :=
  match input with
  | m :: rest =>
      if m = 'r' then some (m :: rest.takeWhile isHexGo, rest.dropWhile isHexGo)
      else none
  | [] => none

/-! ### Token model -/

/-- The token kind constants of the source.  `TokType` models the Go field
`Type` (a Lean keyword). -/
def TokenIdentifier : Nat := 0
def TokenQuotedString : Nat := 1
def TokenUint64 : Nat := 2
def TokenUint32 : Nat := 3
def TokenUint16 : Nat := 4
def TokenUint8 : Nat := 5
def TokenRegister : Nat := 6
/-- The source constant is named TokenMacro; renamed here. -/
def TokenMacroRefKind : Nat := 7
def TokenUnknown : Nat := 255

/-- A lexical token: kind tag and the exact matched text. -/
structure Token where
  TokType : Nat
  ValueReceived : List Char
deriving DecidableEq

/-- One iteration of the scanning loop of `Tokenize`: try the eight
patterns in their fixed priority order on the remaining input; if none
matches, emit a single-character Unknown token.  On empty input (never
reached by the loop) an empty Unknown token is returned. -/
def stepTok (input : List Char) : Token × List Char :=
  match matchQuoted input with
  | some (m, r) => (⟨1, m⟩, r)
  | none =>
  match matchMacroRef input with
  | some (m, r) => (⟨7, m⟩, r)
  | none =>
  match matchIdent input with
  | some (m, r) => (⟨0, m⟩, r)
  | none =>
  match matchHex 9 16 input with
  | some (m, r) => (⟨2, m⟩, r)
  | none =>
  match matchHex 5 8 input with
  | some (m, r) => (⟨3, m⟩, r)
  | none =>
  match matchHex 3 4 input with
  | some (m, r) => (⟨4, m⟩, r)
  | none =>
  match matchHex 1 2 input with
  | some (m, r) => (⟨5, m⟩, r)
  | none =>
  match matchRegister input with
  | some (m, r) => (⟨6, m⟩, r)
  | none =>
  match input with
  | c :: rest => (⟨255, [c]⟩, rest)
  | [] => (⟨255, []⟩, [])

/-- The scanning loop with an explicit iteration budget.  Each iteration of
the Go loop strictly advances the offset, so a budget of the input length
always suffices (proved below). -/
def tokenizeFuel : Nat → List Char → List Token
  | 0, _ => []
  | Nat.succ _, [] => []
  | Nat.succ n, c :: rest =>
      (stepTok (c :: rest)).1 :: tokenizeFuel n (stepTok (c :: rest)).2

/-- `Tokenize`: scan the whole input, left to right. -/
def Tokenize (input : List Char) : List Token :=
  tokenizeFuel input.length input

/-- `EatComments`: truncate at the first semicolon, if any. -/
def EatComments (txt : List Char) : List Char :=
  txt.takeWhile (fun c => c != ';')

/-! ### Object model

`ObjectValue` has Go type `interface{}`; the values stored anywhere in this
package are strings, `uint64` integers, booleans, or the nil interface of a
zero-valued struct, so a four-constructor sum is a faithful model.  A failed
interface type assertion `x.(T)` is a Go runtime panic, modelled as `none`
in the accessor results. -/

inductive GoValue where
  | vstr (s : List Char)
  | vint (n : Nat)
  | vbool (b : Bool)
  | vnil
deriving DecidableEq

def OBJECT_TYPE_STRING : Nat := 0
def OBJECT_TYPE_INTEGER : Nat := 1
def OBJECT_TYPE_BOOLEAN : Nat := 2

structure ObjectType where
  ObjectTypeId : Nat
  ObjectValue : GoValue
  ObjectDescriptor : List Char
deriving DecidableEq

def SetString (s desc : List Char) : ObjectType :=
  ⟨OBJECT_TYPE_STRING, .vstr s, desc⟩

def SetInteger (i : Nat) (desc : List Char) : ObjectType :=
  ⟨OBJECT_TYPE_INTEGER, .vint i, desc⟩

def SetBoolean (b : Bool) (desc : List Char) : ObjectType :=
  ⟨OBJECT_TYPE_BOOLEAN, .vbool b, desc⟩

/-- `GetString` returns (success, value slot, descriptor slot).  On a type
id mismatch the value slot carries the message "Mismatched object type" and
the descriptor slot is empty.  On a matching id the stored value is
asserted to be a string; a non-string value panics (`none`). -/
def GetString (obj : ObjectType) : Option (Bool × List Char × List Char) :=
  if obj.ObjectTypeId ≠ OBJECT_TYPE_STRING then
    some (false, ("Mismatched object type").toList, [])
  else
    match obj.ObjectValue with
    | .vstr s => some (true, s, obj.ObjectDescriptor)
    | _ => none

/-- `GetInteger` returns (success, value, error message). -/
def GetInteger (obj : ObjectType) : Option (Bool × Nat × List Char) :=
  if obj.ObjectTypeId ≠ OBJECT_TYPE_INTEGER then
    some (false, 0, ("Mismatch object type").toList)
  else
    match obj.ObjectValue with
    | .vint n => some (true, n, [])
    | _ => none

/-- `GetBoolean` returns (success, value, error message). -/
def GetBoolean (obj : ObjectType) : Option (Bool × Bool × List Char) :=
  if obj.ObjectTypeId ≠ OBJECT_TYPE_BOOLEAN then
    some (false, false, ("Mismatch object type").toList)
  else
    match obj.ObjectValue with
    | .vbool b => some (true, b, [])
    | _ => none

/-- The stored value representation agrees with the discriminant for the
three representation tags; ids outside 0..2 never reach a type assertion. -/
def reprMatches (id : Nat) (v : GoValue) : Bool :=
  if id = 0 then (match v with | .vstr _ => true | _ => false)
  else if id = 1 then (match v with | .vint _ => true | _ => false)
  else if id = 2 then (match v with | .vbool _ => true | _ => false)
  else true

/-! ### Template model and the line parser -/

structure TemplateObject where
  TemplateType : Nat
  TemplateValue : ObjectType
  TemplateError : List Char
deriving DecidableEq

/-- The display name table, indexed by kind ordinal; 8 entries. -/
def TokenNames : List (List Char) :=
  [("Identifier").toList, ("QuotedString").toList, ("Uint64").toList,
   ("Uint32").toList, ("Uint16").toList, ("Uint8").toList,
   ("Register").toList, ("Macro").toList]

/-- Result of `ParseLine`: either a returned Go triple
(object list or nil, success flag, error message), or a runtime panic. -/
inductive ParseResult where
  | ret (objs : Option (List ObjectType)) (success : Bool) (error : List Char)
  | panic
deriving DecidableEq

/-- Model of `strconv.ParseUint(s, 16, 64)`: fails on an empty string, on
any non-hex character, and on a value that does not fit in 64 bits. -/
def hexDigitVal (c : Char) : Nat :=
  if 48 ≤ c.toNat && c.toNat ≤ 57 then c.toNat - 48
  else if 97 ≤ c.toNat && c.toNat ≤ 102 then c.toNat - 87
  else if 65 ≤ c.toNat && c.toNat ≤ 70 then c.toNat - 55
  else 0

def hexVal (s : List Char) : Nat :=
  s.foldl (fun acc c => acc * 16 + hexDigitVal c) 0

def parseHex (s : List Char) : Option Nat :=
  if s = [] then none
  else if s.all isHexGo then
    if hexVal s < 2 ^ 64 then some (hexVal s) else none
  else none

/-- The descriptor the source stores on every failed numeric parse. -/
def badHexDesc : List Char :=
  ("The value of the register is not a valid hex number").toList

/-- One iteration of the token-processing loop of `ParseLine`: the switch
on the token kind.  Returns the updated object list and false when the
iteration ends in an early `return` (failed numeric parse).  Kinds outside
the switch cases (only `TokenUnknown` is reachable) fall through and
append nothing. -/
def processTok1 (acc : List ObjectType) (t : Token) : List ObjectType × Bool :=
  if t.TokType = 0 || t.TokType = 7 || t.TokType = 1 then
    (acc ++ [⟨t.TokType, .vstr t.ValueReceived, []⟩], true)
  else if t.TokType = 2 || t.TokType = 3 || t.TokType = 4 || t.TokType = 5 then
    match parseHex t.ValueReceived with
    | some v => (acc ++ [⟨t.TokType, .vint v, []⟩], true)
    | none => (acc ++ [⟨t.TokType, .vint 0, badHexDesc⟩], false)
  else if t.TokType = 6 then
    match parseHex (t.ValueReceived.drop 1) with
    | some v => (acc ++ [⟨t.TokType, .vint v, []⟩], true)
    | none => (acc ++ [⟨t.TokType, .vint 0, badHexDesc⟩], false)
  else (acc, true)

/-- The token-processing loop. -/
def processTokens : List Token → List ObjectType → List ObjectType × Bool
  | [], acc => (acc, true)
  | t :: rest, acc =>
      match processTok1 acc t with
      | (acc2, true) => processTokens rest acc2
      | (acc2, false) => (acc2, false)

/-- The type mismatch message,
`fmt.Sprintf("Expected type (%d)%s but got type (%d)%s: %s", ...)`. -/
def mismatchMsg (tt ot : Nat) (lbl : List Char) : List Char :=
  ("Expected type (").toList ++ (Nat.repr tt).toList ++ (")").toList ++
    TokenNames.getD tt [] ++ (" but got type (").toList ++
    (Nat.repr ot).toList ++ (")").toList ++ TokenNames.getD ot [] ++
    (": ").toList ++ lbl

/-- The final validation loop of `ParseLine`, iterating over the object
list and indexing the template list at the same positions.  `allObjs` is
the full object list that the source returns on the mismatch path.  The Go
code indexes `TokenNames` with both kind numbers; an out-of-range index is
a runtime panic, as is indexing the template list beyond its length. -/
def validateLoop (objs : List ObjectType) (tmpl : List TemplateObject)
    (allObjs : List ObjectType) : ParseResult :=
  match objs, tmpl with
  | [], _ => .ret (some allObjs) true []
  | o :: os, t :: ts =>
      if o.ObjectTypeId = t.TemplateType then validateLoop os ts allObjs
      else if t.TemplateType < TokenNames.length ∧
          o.ObjectTypeId < TokenNames.length then
        .ret (some allObjs) false
          (mismatchMsg t.TemplateType o.ObjectTypeId t.TemplateError)
      else .panic
  | _ :: _, [] => .panic

/-- `strings.ToLower` restricted to ASCII (the package treats input as
single-byte characters). -/
def asciiToLower (c : Char) : Char :=
  if 65 ≤ c.toNat && c.toNat ≤ 90 then Char.ofNat (c.toNat + 32) else c

/-- The text that `ParseLine` actually tokenizes: lower-cased, comments
stripped. -/
def goInput (txt : List Char) : List Char :=
  EatComments (txt.map asciiToLower)

/-- `ParseLine txt templateList`: tokenize the lower-cased, comment-stripped
text, convert tokens to objects, then validate length and per-position
kinds against the template list. -/
def ParseLine (txt : List Char) (templateList : List TemplateObject) :
    ParseResult :=
  if Tokenize (goInput txt) = [] then
    .ret none false ("No tokens found").toList
  else
    match processTokens (Tokenize (goInput txt)) [] with
    | (objList, false) => .ret (some objList) false ("Invalid number").toList
    | (objList, true) =>
        if objList.length ≠ templateList.length then
          .ret none false
            ("Object list and template list length do not match").toList
        else validateLoop objList templateList objList


/-- The zero value of the Go struct `ObjectType` (nil interface value). -/
def zeroObject : ObjectType := ⟨0, .vnil, []⟩

/-- The template built by the demo program: identifier, register, register. -/
def demoTemplate : List TemplateObject :=
  [⟨TokenIdentifier, zeroObject, ("Expected an identifier").toList⟩,
   ⟨TokenRegister, zeroObject, ("Expected a destination register").toList⟩,
   ⟨TokenRegister, zeroObject, ("Expected a source register").toList⟩]

/-- The per-position agreement the validator checks. -/
def kindOK (o : ObjectType) (t : TemplateObject) : Prop :=
  o.ObjectTypeId = t.TemplateType

/-- The text handed to the base-16 parser for a token: a Register token
loses its leading marker character. -/
def numText (t : Token) : List Char :=
  if t.TokType = 6 then t.ValueReceived.drop 1 else t.ValueReceived

/-- The zero-valued, error-annotated object appended for a token whose
numeric parse failed. -/
def errObjOf (t : Token) : ObjectType := ⟨t.TokType, .vint 0, badHexDesc⟩

/-! ### Elementary facts about takeWhile and dropWhile -/

theorem tw_all {p : Char → Bool} {l : List Char}
    (h : ∀ c ∈ l, p c = true) : l.takeWhile p = l := by
  induction l with
  | nil => rfl
  | cons a l ih =>
      rw [List.takeWhile_cons p a l, if_pos (h a (List.mem_cons_self a l)),
        ih (fun c hc => h c (List.mem_cons_of_mem a hc))]

theorem dw_all {p : Char → Bool} {l : List Char}
    (h : ∀ c ∈ l, p c = true) : l.dropWhile p = [] := by
  induction l with
  | nil => rfl
  | cons a l ih =>
      rw [List.dropWhile_cons, if_pos (h a (List.mem_cons_self a l))]
      exact ih (fun c hc => h c (List.mem_cons_of_mem a hc))

theorem dw_head_false (p : Char → Bool) {l : List Char} {x : Char}
    {xs : List Char} (h : l.dropWhile p = x :: xs) : p x = false := by
  induction l with
  | nil => simp at h
  | cons a l ih =>
      rw [List.dropWhile_cons] at h
      by_cases ha : p a = true
      · rw [if_pos ha] at h
        exact ih h
      · rw [if_neg ha] at h
        cases h
        exact Bool.eq_false_iff.mpr ha

theorem tw_append {p : Char → Bool} {l1 : List Char} (l2 : List Char)
    (h : ∀ c ∈ l1, p c = true) :
    (l1 ++ l2).takeWhile p = l1 ++ l2.takeWhile p := by
  induction l1 with
  | nil => rfl
  | cons a l1 ih =>
      rw [List.cons_append, List.takeWhile_cons,
        if_pos (h a (List.mem_cons_self a l1)),
        ih (fun c hc => h c (List.mem_cons_of_mem a hc)), List.cons_append]

theorem dw_append {p : Char → Bool} {l1 : List Char} (l2 : List Char)
    (h : ∀ c ∈ l1, p c = true) :
    (l1 ++ l2).dropWhile p = l2.dropWhile p := by
  induction l1 with
  | nil => rfl
  | cons a l1 ih =>
      rw [List.cons_append, List.dropWhile_cons,
        if_pos (h a (List.mem_cons_self a l1))]
      exact ih (fun c hc => h c (List.mem_cons_of_mem a hc))

/-! ### Soundness of each matcher: the match is a nonempty prefix -/

theorem matchQuoted_sound {input m r : List Char}
    (h : matchQuoted input = some (m, r)) : m ++ r = input ∧ m ≠ [] := by
  match input with
  | [] => simp [matchQuoted] at h
  | q :: rest =>
    simp only [matchQuoted] at h
    split at h
    · rename_i hq
      subst hq
      split at h
      · rename_i x rest2 hdw
        cases h
        have hx : (x != '"') = false := dw_head_false (fun c => c != '"') hdw
        have hx2 : x = '"' := by
          simpa using hx
        subst hx2
        constructor
        · have := List.takeWhile_append_dropWhile (fun c => c != '"') rest
          rw [hdw] at this
          simp only [List.cons_append, List.append_assoc,
            List.singleton_append, List.nil_append]
          rw [this]
        · simp
      · cases h
    · cases h

theorem matchMacroRef_sound {input m r : List Char}
    (h : matchMacroRef input = some (m, r)) : m ++ r = input ∧ m ≠ [] := by
  match input with
  | [] => simp [matchMacroRef] at h
  | [c] => simp [matchMacroRef] at h
  | a :: b :: rest =>
    simp only [matchMacroRef] at h
    split at h
    · cases h
      refine ⟨?_, by simp⟩
      simp only [List.cons_append, List.cons.injEq, true_and]
      exact List.takeWhile_append_dropWhile isMacroTail rest
    · cases h

theorem matchIdent_sound {input m r : List Char}
    (h : matchIdent input = some (m, r)) : m ++ r = input ∧ m ≠ [] := by
  match input with
  | [] => simp [matchIdent] at h
  | [c] => simp [matchIdent] at h
  | a :: b :: rest =>
    simp only [matchIdent] at h
    split at h
    · cases h
      refine ⟨?_, by simp⟩
      simp only [List.cons_append, List.cons.injEq, true_and]
      exact List.takeWhile_append_dropWhile isIdentTail rest
    · cases h

theorem matchHex_sound {lo hi : Nat} {input m r : List Char}
    (hlo : 1 ≤ lo) (hhi : 1 ≤ hi)
    (h : matchHex lo hi input = some (m, r)) :
    m ++ r = input ∧ m ≠ [] := by
  simp only [matchHex] at h
  split at h
  · rename_i hL
    cases h
    refine ⟨List.take_append_drop _ input, ?_⟩
    have hL2 : (input.takeWhile isHexGo).length ≤ input.length :=
      (List.takeWhile_sublist isHexGo).length_le
    have : (input.take (min (input.takeWhile isHexGo).length hi)).length =
        min (min (input.takeWhile isHexGo).length hi) input.length :=
      List.length_take _ _
    intro hm
    rw [hm] at this
    simp only [List.length_nil] at this
    omega
  · cases h

theorem matchRegister_sound {input m r : List Char}
    (h : matchRegister input = some (m, r)) : m ++ r = input ∧ m ≠ [] := by
  match input with
  | [] => simp [matchRegister] at h
  | a :: rest =>
    simp only [matchRegister] at h
    split at h
    · cases h
      refine ⟨?_, by simp⟩
      simp only [List.cons_append, List.cons.injEq, true_and]
      exact List.takeWhile_append_dropWhile isHexGo rest
    · cases h

/-- Every step of the scanner consumes a nonempty prefix of its input. -/
theorem stepTok_sound (input : List Char) (h : input ≠ []) :
    (stepTok input).1.ValueReceived ++ (stepTok input).2 = input ∧
    (stepTok input).1.ValueReceived ≠ [] := by
  unfold stepTok
  split
  · rename_i m r heq
    exact matchQuoted_sound heq
  split
  · rename_i m r heq
    exact matchMacroRef_sound heq
  split
  · rename_i m r heq
    exact matchIdent_sound heq
  split
  · rename_i m r heq
    exact matchHex_sound (by omega) (by omega) heq
  split
  · rename_i m r heq
    exact matchHex_sound (by omega) (by omega) heq
  split
  · rename_i m r heq
    exact matchHex_sound (by omega) (by omega) heq
  split
  · rename_i m r heq
    exact matchHex_sound (by omega) (by omega) heq
  split
  · rename_i m r heq
    exact matchRegister_sound heq
  split
  · exact ⟨rfl, by simp⟩
  · exact absurd rfl h

/-- Every step strictly advances the scan offset. -/
theorem stepTok_rest_lt (input : List Char) (h : input ≠ []) :
    (stepTok input).2.length < input.length := by
  obtain ⟨happ, hne⟩ := stepTok_sound input h
  have := congrArg List.length happ
  rw [List.length_append] at this
  have h1 : 1 ≤ (stepTok input).1.ValueReceived.length := by
    cases hv : (stepTok input).1.ValueReceived with
    | nil => exact absurd hv hne
    | cons a l => simp
  omega

/-! ### The scanning loop: fuel is irrelevant beyond the input length -/

theorem tokenizeFuel_congr : ∀ (n m : Nat) (input : List Char),
    input.length ≤ n → input.length ≤ m →
    tokenizeFuel n input = tokenizeFuel m input
  | 0, m, input, hn, _ => by
      have : input = [] := List.length_eq_zero.mp (Nat.le_zero.mp hn)
      subst this
      cases m <;> rfl
  | Nat.succ n, 0, input, _, hm => by
      have : input = [] := List.length_eq_zero.mp (Nat.le_zero.mp hm)
      subst this
      rfl
  | Nat.succ n, Nat.succ m, [], _, _ => rfl
  | Nat.succ n, Nat.succ m, c :: rest, hn, hm => by
      have hlt := stepTok_rest_lt (c :: rest) (by simp)
      simp only [List.length_cons] at hlt hn hm
      simp only [tokenizeFuel]
      rw [tokenizeFuel_congr n m (stepTok (c :: rest)).2
        (by omega) (by omega)]

/-- Tokenizing consumes the whole input: the texts of the emitted tokens
concatenate, in order, to the input. -/
theorem tokenizeFuel_sum : ∀ (n : Nat) (input : List Char),
    input.length ≤ n →
    ((tokenizeFuel n input).map (fun t => t.ValueReceived.length)).sum =
      input.length
  | 0, input, hn => by
      have : input = [] := List.length_eq_zero.mp (Nat.le_zero.mp hn)
      subst this
      rfl
  | Nat.succ n, [], _ => rfl
  | Nat.succ n, c :: rest, hn => by
      have hlt := stepTok_rest_lt (c :: rest) (by simp)
      have hlen := congrArg List.length (stepTok_sound (c :: rest) (by simp)).1
      rw [List.length_append] at hlen
      simp only [List.length_cons] at hlt hn hlen
      simp only [tokenizeFuel, List.map_cons, List.sum_cons]
      rw [tokenizeFuel_sum n (stepTok (c :: rest)).2 (by omega)]
      simp only [List.length_cons]
      omega

/-- Claim C2: for every input string, the `Tokenize` loop terminates within
at most input-length iterations (with an iteration budget of the input
length the loop already reaches the empty remainder, and any larger budget
produces the same token list), every iteration strictly advances the offset
by at least one character, and the lengths of the emitted token texts sum
to the length of the input. -/
theorem C2_tokenize_terminates_and_consumes_all (input : List Char) :
    (∀ n, input.length ≤ n → tokenizeFuel n input = Tokenize input) ∧
    (input ≠ [] → 1 ≤ (stepTok input).1.ValueReceived.length ∧
      (stepTok input).2.length < input.length) ∧
    ((Tokenize input).map (fun t => t.ValueReceived.length)).sum =
      input.length := by
  refine ⟨fun n hn => tokenizeFuel_congr n input.length input hn le_rfl,
    fun h => ⟨?_, stepTok_rest_lt input h⟩,
    tokenizeFuel_sum input.length input le_rfl⟩
  have hne := (stepTok_sound input h).2
  cases hv : (stepTok input).1.ValueReceived with
  | nil => exact absurd hv hne
  | cons a l => simp

/-! ### The validation loop -/

theorem validateLoop_true_inv : ∀ (objs : List ObjectType)
    (tmpl : List TemplateObject) (all : List ObjectType)
    (o : Option (List ObjectType)) (e : List Char),
    objs.length = tmpl.length →
    validateLoop objs tmpl all = .ret o true e →
    o = some all ∧ e = [] ∧ List.Forall₂ kindOK objs tmpl
  | [], [], all, o, e, _, h => by
      simp only [validateLoop, ParseResult.ret.injEq] at h
      exact ⟨h.1.symm, h.2.2.symm, List.Forall₂.nil⟩
  | [], t :: ts, all, o, e, hlen, h => by simp at hlen
  | ob :: os, [], all, o, e, hlen, h => by simp at hlen
  | ob :: os, t :: ts, all, o, e, hlen, h => by
      simp only [validateLoop] at h
      split at h
      · rename_i hk
        obtain ⟨h1, h2, h3⟩ := validateLoop_true_inv os ts all o e
          (by simpa using hlen) h
        exact ⟨h1, h2, List.Forall₂.cons hk h3⟩
      · split at h
        · simp only [ParseResult.ret.injEq] at h
          exact absurd h.2.1 (by simp)
        · cases h

theorem validateLoop_complete {objs : List ObjectType}
    {tmpl : List TemplateObject} (all : List ObjectType)
    (h : List.Forall₂ kindOK objs tmpl) :
    validateLoop objs tmpl all = .ret (some all) true [] := by
  induction h with
  | nil => rfl
  | cons hk htail ih =>
      simp only [kindOK] at hk
      simp only [validateLoop]
      rw [if_pos hk]
      exact ih

theorem validateLoop_ret_some : ∀ (objs : List ObjectType)
    (tmpl : List TemplateObject) (all : List ObjectType)
    (o : Option (List ObjectType)) (b : Bool) (e : List Char),
    validateLoop objs tmpl all = .ret o b e → o = some all
  | [], _, all, o, b, e, h => by
      simp only [validateLoop, ParseResult.ret.injEq] at h
      exact h.1.symm
  | ob :: os, [], all, o, b, e, h => by cases h
  | ob :: os, t :: ts, all, o, b, e, h => by
      simp only [validateLoop] at h
      split at h
      · exact validateLoop_ret_some os ts all o b e h
      · split at h
        · simp only [ParseResult.ret.injEq] at h
          exact h.1.symm
        · cases h

theorem validateLoop_no_panic : ∀ (objs : List ObjectType)
    (tmpl : List TemplateObject) (all : List ObjectType),
    objs.length = tmpl.length →
    (∀ o ∈ objs, o.ObjectTypeId < 8) →
    (∀ t ∈ tmpl, t.TemplateType < 8) →
    validateLoop objs tmpl all ≠ .panic
  | [], _, all, _, _, _ => by simp [validateLoop]
  | ob :: os, [], all, hlen, _, _ => by simp at hlen
  | ob :: os, t :: ts, all, hlen, hobjs, htmpl => by
      simp only [validateLoop]
      split
      · exact validateLoop_no_panic os ts all (by simpa using hlen)
          (fun o ho => hobjs o (List.mem_cons_of_mem ob ho))
          (fun u hu => htmpl u (List.mem_cons_of_mem t hu))
      · rw [if_pos]
        · simp
        · constructor
          · have := htmpl t (List.mem_cons_self t ts)
            simpa [TokenNames] using this
          · have := hobjs ob (List.mem_cons_self ob os)
            simpa [TokenNames] using this

/-! ### The token-processing loop -/

theorem processTokens_append : ∀ (pre rest : List Token)
    (acc acc2 : List ObjectType),
    processTokens pre acc = (acc2, true) →
    processTokens (pre ++ rest) acc = processTokens rest acc2
  | [], rest, acc, acc2, h => by
      simp only [processTokens, Prod.mk.injEq] at h
      rw [List.nil_append, h.1]
  | u :: pre, rest, acc, acc2, h => by
      simp only [processTokens] at h
      rw [List.cons_append]
      simp only [processTokens]
      split at h
      · rename_i a2 heq
        exact processTokens_append pre rest a2 acc2 h
      · rename_i a2 heq
        simp at h

theorem processTok1_ids (acc : List ObjectType) (t : Token)
    (h : ∀ o ∈ acc, o.ObjectTypeId < 8) :
    ∀ o ∈ (processTok1 acc t).1, o.ObjectTypeId < 8 := by
  unfold processTok1
  split
  · rename_i hk
    intro o ho
    rcases List.mem_append.mp ho with ho | ho
    · exact h o ho
    · have ho2 : o = ⟨t.TokType, .vstr t.ValueReceived, []⟩ := by simpa using ho
      subst ho2
      simp only [Bool.or_eq_true, decide_eq_true_eq] at hk
      show t.TokType < 8
      omega
  split
  · rename_i hk
    split
    all_goals
      intro o ho
      rcases List.mem_append.mp ho with ho | ho
      · exact h o ho
      · have ho2 := List.mem_singleton.mp ho
        subst ho2
        simp only [Bool.or_eq_true, decide_eq_true_eq] at hk
        show t.TokType < 8
        omega
  split
  · rename_i hk
    split
    all_goals
      intro o ho
      rcases List.mem_append.mp ho with ho | ho
      · exact h o ho
      · have ho2 := List.mem_singleton.mp ho
        subst ho2
        show t.TokType < 8
        omega
  · exact h

theorem processTokens_ids : ∀ (toks : List Token) (acc : List ObjectType),
    (∀ o ∈ acc, o.ObjectTypeId < 8) →
    ∀ o ∈ (processTokens toks acc).1, o.ObjectTypeId < 8
  | [], acc, h => h
  | t :: toks, acc, h => by
      simp only [processTokens]
      split
      · rename_i a2 heq
        have ha2 : ∀ o ∈ a2, o.ObjectTypeId < 8 := by
          have := processTok1_ids acc t h
          rw [heq] at this
          exact this
        exact processTokens_ids toks a2 ha2
      · rename_i a2 heq
        have := processTok1_ids acc t h
        rw [heq] at this
        exact this

/-- A nonempty input always produces at least one token. -/
theorem Tokenize_nil_iff (input : List Char) :
    Tokenize input = [] ↔ input = [] := by
  cases input with
  | nil => simp [Tokenize, tokenizeFuel]
  | cons c rest => simp [Tokenize, tokenizeFuel]

/-- Claim C1, both directions.  First: `ParseLine` reports success only
with an empty error, and then the produced object list and the template
list have equal length and agree on the kind at every position.  Second:
if tokenization is nonempty, token processing completes with no numeric
failure, and the produced objects match the template in length and in kind
at every position, then `ParseLine` returns the full object list,
success, and an empty error. -/
theorem C1_success_characterization (txt : List Char)
    (tmpl : List TemplateObject) :
    (∀ o e, ParseLine txt tmpl = .ret o true e →
      e = [] ∧ ∃ l, o = some l ∧ l.length = tmpl.length ∧
        ∀ i (h1 : i < l.length) (h2 : i < tmpl.length),
          (l.get ⟨i, h1⟩).ObjectTypeId = (tmpl.get ⟨i, h2⟩).TemplateType) ∧
    (∀ l, Tokenize (goInput txt) ≠ [] →
      processTokens (Tokenize (goInput txt)) [] = (l, true) →
      l.length = tmpl.length →
      (∀ i (h1 : i < l.length) (h2 : i < tmpl.length),
        (l.get ⟨i, h1⟩).ObjectTypeId = (tmpl.get ⟨i, h2⟩).TemplateType) →
      ParseLine txt tmpl = .ret (some l) true []) := by
  constructor
  · intro o e h
    unfold ParseLine at h
    split at h
    · simp at h
    · split at h
      · simp at h
      · rename_i objList heq
        split at h
        · simp at h
        · rename_i hlen
          rw [not_not] at hlen
          obtain ⟨h1, h2, h3⟩ :=
            validateLoop_true_inv objList tmpl objList o e hlen h
          subst h1
          exact ⟨h2, objList, rfl, hlen, (List.forall₂_iff_get.mp h3).2⟩
  · intro l htoks hproc hlen hmatch
    unfold ParseLine
    rw [if_neg htoks]
    simp only [hproc]
    rw [if_neg (fun hh => hh hlen)]
    exact validateLoop_complete l
      (List.forall₂_iff_get.mpr ⟨hlen, hmatch⟩)

/-- Witness for C2 at the concrete input "r10 abc". -/
theorem C2_witness :
    tokenizeFuel 24 ("r10 abc").toList = Tokenize ("r10 abc").toList ∧
    (1 ≤ (stepTok (("r10 abc").toList)).1.ValueReceived.length ∧
      (stepTok (("r10 abc").toList)).2.length ≤ 6) ∧
    ((Tokenize ("r10 abc").toList).map
      (fun t => t.ValueReceived.length)).sum = 7 := by
  obtain ⟨h1, h2, h3⟩ := C2_tokenize_terminates_and_consumes_all
    (("r10 abc").toList)
  obtain ⟨h4, h5⟩ := h2 (by decide)
  exact ⟨h1 24 (by decide), ⟨h4, by revert h5; decide⟩, by revert h3; decide⟩

/-- Witness for C1: a concrete successful parse obtained from the success
characterization. -/
theorem C1_witness :
    ParseLine ("abc").toList
      [⟨TokenIdentifier, zeroObject, ("want id").toList⟩] =
      .ret (some [⟨0, .vstr ("abc").toList, []⟩]) true [] :=
  (C1_success_characterization ("abc").toList
      [⟨TokenIdentifier, zeroObject, ("want id").toList⟩]).2
    [⟨0, .vstr ("abc").toList, []⟩] (by decide) (by decide) (by decide)
    (by intro i h1 h2
        have hi : i = 0 := by
          simp only [List.length_cons, List.length_nil] at h1
          omega
        subst hi
        rfl)

/-- Claim C9: parsing "mov64 r10 r11" against the demo template
(identifier, register, register) succeeds with an empty error and produces
exactly the identifier object "mov64" and two register objects holding
0x10 = 16 and 0x11 = 17. -/
theorem C9_demo_scenario :
    ParseLine ("mov64 r10 r11").toList demoTemplate =
      .ret (some [⟨TokenIdentifier, .vstr ("mov64").toList, []⟩,
        ⟨TokenRegister, .vint 16, []⟩, ⟨TokenRegister, .vint 17, []⟩])
        true [] := by
  decide

/-- Claim C4 counterexample: a whitespace-only line has no characters
recognizable by any pattern, yet `ParseLine` does not report
"No tokens found": the space becomes an Unknown token, the Unknown token
is discarded, and against an empty template the parse even succeeds. -/
theorem C4_counterexample :
    ParseLine (" ").toList [] = .ret (some []) true [] ∧
    ParseLine (" ").toList [] ≠
      .ret none false ("No tokens found").toList := by
  decide

/-- Claim C4, amended: `ParseLine` reports "No tokens found" (success
false, nil object list) exactly when the lower-cased text before the first
comment delimiter is empty; inputs that are merely unrecognizable (such as
whitespace) produce Unknown tokens and take other paths. -/
theorem C4_empty_input_characterization (txt : List Char)
    (tmpl : List TemplateObject) :
    (goInput txt = [] →
      ParseLine txt tmpl = .ret none false ("No tokens found").toList) ∧
    (ParseLine txt tmpl = .ret none false ("No tokens found").toList →
      goInput txt = []) := by
  constructor
  · intro h
    unfold ParseLine
    rw [if_pos (by rw [h]; rfl)]
  · intro h
    unfold ParseLine at h
    split at h
    · rename_i htok
      exact (Tokenize_nil_iff _).mp htok
    · exfalso
      split at h
      · simp at h
      · rename_i objList heq
        split at h
        · simp only [ParseResult.ret.injEq] at h
          have hmsg := h.2.2
          revert hmsg
          decide
        · have := validateLoop_ret_some objList tmpl objList none false
            (("No tokens found").toList) h
          simp at this

/-- Witness for the amended C4 at a comment-only line. -/
theorem C4_witness :
    ParseLine ("; only a comment").toList demoTemplate =
      .ret none false ("No tokens found").toList :=
  (C4_empty_input_characterization ("; only a comment").toList
    demoTemplate).1 (by decide)

/-- Claim C5 counterexample: with a caller-supplied template whose
`TemplateType` is 100, a kind mismatch makes the source index
`TokenNames[100]`, a Go runtime panic, not a returned error triple. -/
theorem C5_counterexample :
    ParseLine ("ab").toList [⟨100, zeroObject, ("label").toList⟩] =
      .panic := by
  decide

/-- Claim C5, amended: for every template whose `TemplateType` values all
lie inside the 8-entry `TokenNames` table, `ParseLine` never panics: every
failure is returned as a well-formed triple. -/
theorem C5_no_panic_for_valid_templates (txt : List Char)
    (tmpl : List TemplateObject)
    (h : ∀ t ∈ tmpl, t.TemplateType < 8) : ParseLine txt tmpl ≠ .panic := by
  unfold ParseLine
  split
  · simp
  · split
    · simp
    · rename_i objList heq
      split
      · simp
      · rename_i hlen
        rw [not_not] at hlen
        have hids : ∀ o ∈ objList, o.ObjectTypeId < 8 := by
          have hp := processTokens_ids (Tokenize (goInput txt)) [] (by simp)
          rw [heq] at hp
          exact hp
        exact validateLoop_no_panic objList tmpl objList hlen hids h

/-- Witness for the amended C5 at a concrete failing-but-returning parse. -/
theorem C5_witness :
    ParseLine ("mov64 bob alice").toList demoTemplate ≠ .panic :=
  C5_no_panic_for_valid_templates ("mov64 bob alice").toList demoTemplate
    (by decide)

theorem processTokens_fail_step (t : Token) (rest : List Token)
    (acc : List ObjectType)
    (hk : t.TokType = 2 ∨ t.TokType = 3 ∨ t.TokType = 4 ∨ t.TokType = 5 ∨
      t.TokType = 6)
    (hp : parseHex (numText t) = none) :
    processTokens (t :: rest) acc = (acc ++ [errObjOf t], false) := by
  rcases hk with hk | hk | hk | hk | hk <;>
    simp [numText, hk] at hp <;>
    simp [processTokens, processTok1, errObjOf, hk, hp]

/-- Claim C6: when base-16 parsing of a numeric-kind token fails,
`ParseLine` stops at once and returns the objects accumulated so far plus
one zero-valued object of the failing token kind carrying a non-empty
error descriptor, with success false and error "Invalid number"; the
tokens after the failing one are never processed (they do not occur in the
result). -/
theorem C6_invalid_number_stops (txt : List Char)
    (tmpl : List TemplateObject) (pre post : List Token) (t : Token)
    (preObjs : List ObjectType)
    (htoks : Tokenize (goInput txt) = pre ++ t :: post)
    (hpre : processTokens pre [] = (preObjs, true))
    (hk : t.TokType = 2 ∨ t.TokType = 3 ∨ t.TokType = 4 ∨ t.TokType = 5 ∨
      t.TokType = 6)
    (hp : parseHex (numText t) = none) :
    ParseLine txt tmpl =
      .ret (some (preObjs ++ [errObjOf t])) false
        ("Invalid number").toList ∧
    (preObjs ++ [errObjOf t]).getLast? = some (errObjOf t) ∧
    (errObjOf t).ObjectDescriptor ≠ [] := by
  have hne : Tokenize (goInput txt) ≠ [] := by
    rw [htoks]
    intro hcontra
    exact absurd (List.append_eq_nil.mp hcontra).2 (by simp)
  have hfull : processTokens (Tokenize (goInput txt)) [] =
      (preObjs ++ [errObjOf t], false) := by
    rw [htoks, processTokens_append pre (t :: post) [] preObjs hpre,
      processTokens_fail_step t post preObjs hk hp]
  refine ⟨?_, by simp, by simp [errObjOf, badHexDesc]⟩
  unfold ParseLine
  rw [if_neg hne]
  simp only [hfull]

/-- Witness for C6: the single Register token "r" (marker with no hex
digits) fails numeric parsing. -/
theorem C6_witness :
    ParseLine ("r").toList [] =
      .ret (some ([] ++ [errObjOf ⟨6, ("r").toList⟩])) false
        ("Invalid number").toList ∧
    (([] : List ObjectType) ++ [errObjOf ⟨6, ("r").toList⟩]).getLast? =
      some (errObjOf ⟨6, ("r").toList⟩) ∧
    (errObjOf ⟨6, ("r").toList⟩).ObjectDescriptor ≠ [] :=
  C6_invalid_number_stops ("r").toList [] [] [] ⟨6, ("r").toList⟩ []
    (by decide) (by decide) (by decide) (by decide)

/-- Claim C3: the code classifies "a_" as one Identifier token although
the second character is the underscore, which is not alphabetic (the
source regex writes the class `[a-zA-z]`, whose A-z range also covers
codes 91..96).  This contradicts the source comment "Must start with two
alpha characters". -/
theorem C3_identifier_underscore_second_char :
    Tokenize ['a', '_'] = [⟨TokenIdentifier, ['a', '_']⟩] ∧
    isGoAlpha '_' = false ∧ isTypoAlpha '_' = true := by
  decide

/-- Claim C7 counterexample: `ParseLine` itself produces an object with
discriminant 2 (`TokenUint64`, which collides with
`OBJECT_TYPE_BOOLEAN = 2`) holding a 64-bit integer; calling `GetBoolean`
on it makes the discriminant check pass and the interface type assertion
`.(bool)` fail, a Go runtime panic rather than a reported mismatch. -/
theorem C7_counterexample :
    ParseLine ("123456789").toList [⟨2, zeroObject, []⟩] =
      .ret (some [⟨2, .vint 4886718345, []⟩]) true [] ∧
    GetBoolean ⟨2, .vint 4886718345, []⟩ = none := by
  decide

/-- Claim C7, amended: for every ObjectType whose stored value
representation agrees with its discriminant (as every object built by the
setters does), each accessor returns the stored value with success when
the discriminant matches the requested representation, and otherwise a
zero or default value together with a mismatched-type error string, never
a fault. -/
theorem C7_accessors (obj : ObjectType)
    (h : reprMatches obj.ObjectTypeId obj.ObjectValue = true) :
    (obj.ObjectTypeId = OBJECT_TYPE_STRING →
      ∃ s, obj.ObjectValue = .vstr s ∧
        GetString obj = some (true, s, obj.ObjectDescriptor)) ∧
    (obj.ObjectTypeId ≠ OBJECT_TYPE_STRING →
      GetString obj = some (false, ("Mismatched object type").toList, [])) ∧
    (obj.ObjectTypeId = OBJECT_TYPE_INTEGER →
      ∃ n, obj.ObjectValue = .vint n ∧ GetInteger obj = some (true, n, [])) ∧
    (obj.ObjectTypeId ≠ OBJECT_TYPE_INTEGER →
      GetInteger obj = some (false, 0, ("Mismatch object type").toList)) ∧
    (obj.ObjectTypeId = OBJECT_TYPE_BOOLEAN →
      ∃ b, obj.ObjectValue = .vbool b ∧ GetBoolean obj = some (true, b, [])) ∧
    (obj.ObjectTypeId ≠ OBJECT_TYPE_BOOLEAN →
      GetBoolean obj = some (false, false, ("Mismatch object type").toList)) := by
  obtain ⟨id, v, d⟩ := obj
  refine ⟨?_, ?_, ?_, ?_, ?_, ?_⟩
  · intro hid
    simp only [OBJECT_TYPE_STRING] at hid
    subst hid
    simp [reprMatches] at h
    cases v with
    | vstr s => exact ⟨s, rfl, by simp [GetString, OBJECT_TYPE_STRING]⟩
    | vint n => simp at h
    | vbool b => simp at h
    | vnil => simp at h
  · intro hid
    have hid2 : id ≠ 0 := by simpa [OBJECT_TYPE_STRING] using hid
    simp [GetString, OBJECT_TYPE_STRING, hid2]
  · intro hid
    simp only [OBJECT_TYPE_INTEGER] at hid
    subst hid
    simp [reprMatches] at h
    cases v with
    | vint n => exact ⟨n, rfl, by simp [GetInteger, OBJECT_TYPE_INTEGER]⟩
    | vstr s => simp at h
    | vbool b => simp at h
    | vnil => simp at h
  · intro hid
    have hid2 : id ≠ 1 := by simpa [OBJECT_TYPE_INTEGER] using hid
    simp [GetInteger, OBJECT_TYPE_INTEGER, hid2]
  · intro hid
    simp only [OBJECT_TYPE_BOOLEAN] at hid
    subst hid
    simp [reprMatches] at h
    cases v with
    | vbool b => exact ⟨b, rfl, by simp [GetBoolean, OBJECT_TYPE_BOOLEAN]⟩
    | vstr s => simp at h
    | vint n => simp at h
    | vnil => simp at h
  · intro hid
    have hid2 : id ≠ 2 := by simpa [OBJECT_TYPE_BOOLEAN] using hid
    simp [GetBoolean, OBJECT_TYPE_BOOLEAN, hid2]

/-! ### Shape of the tokens the scanner can emit, and numeric parsing -/

theorem mem_tokenizeFuel : ∀ (n : Nat) (input : List Char) (t : Token),
    t ∈ tokenizeFuel n input → ∃ s, s ≠ [] ∧ (stepTok s).1 = t
  | 0, input, t, h => by simp [tokenizeFuel] at h
  | Nat.succ n, [], t, h => by simp [tokenizeFuel] at h
  | Nat.succ n, c :: rest, t, h => by
      simp only [tokenizeFuel] at h
      rcases List.mem_cons.mp h with h | h
      · exact ⟨c :: rest, by simp, h.symm⟩
      · exact mem_tokenizeFuel n _ t h

theorem take_of_le_takeWhile (p : Char → Bool) (l : List Char) (k : Nat)
    (hk : k ≤ (l.takeWhile p).length) : l.take k = (l.takeWhile p).take k := by
  have h0 : (l.takeWhile p ++ l.dropWhile p).take k = (l.takeWhile p).take k :=
    List.take_append_of_le_length hk
  rw [List.takeWhile_append_dropWhile p l] at h0
  exact h0

theorem matchHex_inv {lo hi : Nat} {input m r : List Char}
    (hlohi : lo ≤ hi) (h : matchHex lo hi input = some (m, r)) :
    (∀ c ∈ m, isHexGo c = true) ∧ lo ≤ m.length ∧ m.length ≤ hi := by
  simp only [matchHex] at h
  split at h
  · rename_i hL
    cases h
    have hL2 : (input.takeWhile isHexGo).length ≤ input.length :=
      (List.takeWhile_sublist isHexGo).length_le
    refine ⟨?_, ?_, ?_⟩
    · intro c hc
      rw [take_of_le_takeWhile isHexGo input _ (min_le_left _ _)] at hc
      exact List.mem_takeWhile_imp (List.take_subset _ _ hc)
    · rw [List.length_take]
      omega
    · rw [List.length_take]
      omega
  · cases h

theorem matchRegister_inv {input m r : List Char}
    (h : matchRegister input = some (m, r)) :
    ∃ run, m = 'r' :: run ∧ ∀ c ∈ run, isHexGo c = true := by
  match input with
  | [] => simp [matchRegister] at h
  | a :: rest =>
    simp only [matchRegister] at h
    split at h
    · rename_i ha
      subst ha
      cases h
      exact ⟨rest.takeWhile isHexGo, rfl, fun c hc => List.mem_takeWhile_imp hc⟩
    · cases h

/-- Which matcher each numeric token kind must have come from. -/
theorem stepTok_kind_inv (s : List Char) :
    ((stepTok s).1.TokType = 2 →
      ∃ r, matchHex 9 16 s = some ((stepTok s).1.ValueReceived, r)) ∧
    ((stepTok s).1.TokType = 3 →
      ∃ r, matchHex 5 8 s = some ((stepTok s).1.ValueReceived, r)) ∧
    ((stepTok s).1.TokType = 4 →
      ∃ r, matchHex 3 4 s = some ((stepTok s).1.ValueReceived, r)) ∧
    ((stepTok s).1.TokType = 5 →
      ∃ r, matchHex 1 2 s = some ((stepTok s).1.ValueReceived, r)) ∧
    ((stepTok s).1.TokType = 6 →
      ∃ r, matchRegister s = some ((stepTok s).1.ValueReceived, r)) := by
  unfold stepTok
  split
  · exact ⟨fun hk => absurd hk (by simp), fun hk => absurd hk (by simp),
      fun hk => absurd hk (by simp), fun hk => absurd hk (by simp),
      fun hk => absurd hk (by simp)⟩
  split
  · exact ⟨fun hk => absurd hk (by simp), fun hk => absurd hk (by simp),
      fun hk => absurd hk (by simp), fun hk => absurd hk (by simp),
      fun hk => absurd hk (by simp)⟩
  split
  · exact ⟨fun hk => absurd hk (by simp), fun hk => absurd hk (by simp),
      fun hk => absurd hk (by simp), fun hk => absurd hk (by simp),
      fun hk => absurd hk (by simp)⟩
  split
  · rename_i m r heq
    exact ⟨fun _ => ⟨r, heq⟩, fun hk => absurd hk (by simp),
      fun hk => absurd hk (by simp), fun hk => absurd hk (by simp),
      fun hk => absurd hk (by simp)⟩
  split
  · rename_i m r heq
    exact ⟨fun hk => absurd hk (by simp), fun _ => ⟨r, heq⟩,
      fun hk => absurd hk (by simp), fun hk => absurd hk (by simp),
      fun hk => absurd hk (by simp)⟩
  split
  · rename_i m r heq
    exact ⟨fun hk => absurd hk (by simp), fun hk => absurd hk (by simp),
      fun _ => ⟨r, heq⟩, fun hk => absurd hk (by simp),
      fun hk => absurd hk (by simp)⟩
  split
  · rename_i m r heq
    exact ⟨fun hk => absurd hk (by simp), fun hk => absurd hk (by simp),
      fun hk => absurd hk (by simp), fun _ => ⟨r, heq⟩,
      fun hk => absurd hk (by simp)⟩
  split
  · rename_i m r heq
    exact ⟨fun hk => absurd hk (by simp), fun hk => absurd hk (by simp),
      fun hk => absurd hk (by simp), fun hk => absurd hk (by simp),
      fun _ => ⟨r, heq⟩⟩
  split
  · exact ⟨fun hk => absurd hk (by simp), fun hk => absurd hk (by simp),
      fun hk => absurd hk (by simp), fun hk => absurd hk (by simp),
      fun hk => absurd hk (by simp)⟩
  · exact ⟨fun hk => absurd hk (by simp), fun hk => absurd hk (by simp),
      fun hk => absurd hk (by simp), fun hk => absurd hk (by simp),
      fun hk => absurd hk (by simp)⟩

theorem hexDigitVal_le (c : Char) : hexDigitVal c ≤ 15 := by
  unfold hexDigitVal
  split
  · rename_i h
    simp only [Bool.and_eq_true, decide_eq_true_eq] at h
    omega
  split
  · rename_i h
    simp only [Bool.and_eq_true, decide_eq_true_eq] at h
    omega
  split
  · rename_i h
    simp only [Bool.and_eq_true, decide_eq_true_eq] at h
    omega
  · omega

theorem hexVal_aux_lt : ∀ (s : List Char) (acc : Nat),
    List.foldl (fun a c => a * 16 + hexDigitVal c) acc s <
      (acc + 1) * 16 ^ s.length
  | [], acc => by simp
  | c :: s, acc => by
      simp only [List.foldl_cons, List.length_cons]
      have h1 := hexVal_aux_lt s (acc * 16 + hexDigitVal c)
      have h2 : hexDigitVal c ≤ 15 := hexDigitVal_le c
      have h3 : (acc * 16 + hexDigitVal c + 1) * 16 ^ s.length ≤
          (acc + 1) * 16 ^ (s.length + 1) := by
        calc (acc * 16 + hexDigitVal c + 1) * 16 ^ s.length
            ≤ ((acc + 1) * 16) * 16 ^ s.length :=
              Nat.mul_le_mul_right _ (by omega)
          _ = (acc + 1) * 16 ^ (s.length + 1) := by ring
      omega

/-- A hex string of length n has value below 16 to the n. -/
theorem hexVal_lt (s : List Char) : hexVal s < 16 ^ s.length := by
  have h := hexVal_aux_lt s 0
  simpa [hexVal] using h

/-- Base-16 parsing always succeeds on 1 to 16 hex digits. -/
theorem parseHex_isSome {s : List Char} (h1 : s ≠ [])
    (h2 : ∀ c ∈ s, isHexGo c = true) (h3 : s.length ≤ 16) :
    (parseHex s).isSome = true := by
  unfold parseHex
  rw [if_neg h1, if_pos (List.all_eq_true.mpr h2), if_pos]
  · rfl
  · have hv := hexVal_lt s
    have hp : (16 : Nat) ^ s.length ≤ 16 ^ 16 :=
      Nat.pow_le_pow_right (by omega) h3
    have h16 : (16 : Nat) ^ 16 = 2 ^ 64 := by norm_num
    omega

/-- On an all-hex string, base-16 parsing fails only when the string is
empty or its value does not fit in 64 bits. -/
theorem parseHex_none_cases {s : List Char}
    (hhex : ∀ c ∈ s, isHexGo c = true) (h : parseHex s = none) :
    s = [] ∨ 2 ^ 64 ≤ hexVal s := by
  by_cases hs : s = []
  · exact Or.inl hs
  · unfold parseHex at h
    rw [if_neg hs, if_pos (List.all_eq_true.mpr hhex)] at h
    split at h
    · cases h
    · rename_i hlt
      exact Or.inr (by omega)

/-- Claim C10 counterexample: `Tokenize` emits a Register token whose text
is the marker followed by 17 hex digits (so not the bare "r"), and its
numeric parse still fails: the value overflows 64 bits, so `ParseLine`
reports "Invalid number" for a Register token other than "r". -/
theorem C10_counterexample :
    Tokenize ('r' :: List.replicate 17 '1') =
      [⟨6, 'r' :: List.replicate 17 '1'⟩] ∧
    ('r' :: List.replicate 17 '1') ≠ ['r'] ∧
    ParseLine ('r' :: List.replicate 17 '1') [] =
      .ret (some [⟨6, .vint 0, badHexDesc⟩]) false
        ("Invalid number").toList := by
  decide

/-- Claim C10, amended: for every token `Tokenize` produces with kind
Uint64, Uint32, Uint16 or Uint8, the base-16 parse in `ParseLine` always
succeeds (the text is 1 to 16 hex digits), so the "Invalid number" branch
is unreachable for those kinds; for a produced Register token the branch
is reachable exactly when the text is the bare marker "r" or the hex
digits after the marker encode a value of at least 2^64. -/
theorem C10_numeric_parse_reachability (input : List Char) (t : Token)
    (h : t ∈ Tokenize input) :
    ((t.TokType = 2 ∨ t.TokType = 3 ∨ t.TokType = 4 ∨ t.TokType = 5) →
      (parseHex t.ValueReceived).isSome = true) ∧
    (t.TokType = 6 → parseHex (t.ValueReceived.drop 1) = none →
      t.ValueReceived = ['r'] ∨ 2 ^ 64 ≤ hexVal (t.ValueReceived.drop 1)) := by
  obtain ⟨s, hs, hst⟩ := mem_tokenizeFuel input.length input t h
  subst hst
  obtain ⟨inv2, inv3, inv4, inv5, inv6⟩ := stepTok_kind_inv s
  constructor
  · intro hk
    have hgoal : (∀ c ∈ (stepTok s).1.ValueReceived, isHexGo c = true) ∧
        1 ≤ (stepTok s).1.ValueReceived.length ∧
        (stepTok s).1.ValueReceived.length ≤ 16 := by
      rcases hk with hk | hk | hk | hk
      · obtain ⟨r, hr⟩ := inv2 hk
        obtain ⟨ha, hb, hc⟩ := matchHex_inv (by omega) hr
        exact ⟨ha, by omega, by omega⟩
      · obtain ⟨r, hr⟩ := inv3 hk
        obtain ⟨ha, hb, hc⟩ := matchHex_inv (by omega) hr
        exact ⟨ha, by omega, by omega⟩
      · obtain ⟨r, hr⟩ := inv4 hk
        obtain ⟨ha, hb, hc⟩ := matchHex_inv (by omega) hr
        exact ⟨ha, by omega, by omega⟩
      · obtain ⟨r, hr⟩ := inv5 hk
        obtain ⟨ha, hb, hc⟩ := matchHex_inv (by omega) hr
        exact ⟨ha, by omega, by omega⟩
    refine parseHex_isSome ?_ hgoal.1 hgoal.2.2
    intro hnil
    rw [hnil] at hgoal
    simp at hgoal
  · intro hk hp
    obtain ⟨r, hr⟩ := inv6 hk
    obtain ⟨run, hrun, hhex⟩ := matchRegister_inv hr
    rw [hrun] at hp ⊢
    have hp2 : parseHex run = none := hp
    rcases parseHex_none_cases hhex hp2 with hnil | hbig
    · left
      rw [hnil]
    · right
      exact hbig

/-- Witness for the amended C10: a 9-hex-digit Uint64 token parses. -/
theorem C10_witness : (parseHex ("123456789").toList).isSome = true :=
  (C10_numeric_parse_reachability ("123456789").toList
    ⟨2, ("123456789").toList⟩ (by decide)).1 (by decide)

/-! ### Stability of each matcher on its own matched text (for claim C8) -/

theorem goAlpha_ne {c : Char} (h : isGoAlpha c = true) :
    c ≠ '"' ∧ c ≠ '@' := by
  constructor
  · intro he
    rw [he] at h
    exact absurd h (by decide)
  · intro he
    rw [he] at h
    exact absurd h (by decide)

theorem hexGo_ne {c : Char} (h : isHexGo c = true) :
    c ≠ '"' ∧ c ≠ '@' ∧ c ≠ 'r' := by
  refine ⟨?_, ?_, ?_⟩ <;>
    (intro he; rw [he] at h; exact absurd h (by decide))

theorem matchQuoted_self {inner : List Char}
    (h : ∀ c ∈ inner, (c != '"') = true) :
    matchQuoted ('"' :: (inner ++ ['"'])) =
      some ('"' :: inner ++ ['"'], []) := by
  have hdw : (inner ++ ['"']).dropWhile (fun c => c != '"') = ['"'] := by
    rw [dw_append ['"'] h]
    decide
  have htw : (inner ++ ['"']).takeWhile (fun c => c != '"') = inner := by
    rw [tw_append ['"'] h]
    simp
  simp only [matchQuoted]
  rw [if_pos trivial, hdw, htw]

theorem matchMacroRef_self {a : Char} {run : List Char}
    (ha : isGoAlpha a = true) (hrun : ∀ c ∈ run, isMacroTail c = true) :
    matchMacroRef ('@' :: a :: run) = some ('@' :: a :: run, []) := by
  simp only [matchMacroRef]
  rw [if_pos (by simp [ha]), tw_all hrun, dw_all hrun]

theorem matchIdent_self {c1 c2 : Char} {run : List Char}
    (h12 : (isGoAlpha c1 && isTypoAlpha c2) = true)
    (hrun : ∀ c ∈ run, isIdentTail c = true) :
    matchIdent (c1 :: c2 :: run) = some (c1 :: c2 :: run, []) := by
  simp only [matchIdent]
  rw [if_pos h12, tw_all hrun, dw_all hrun]

theorem matchHex_self {lo hi : Nat} {l : List Char}
    (hhex : ∀ c ∈ l, isHexGo c = true) (hlo : lo ≤ l.length)
    (hhi : l.length ≤ hi) : matchHex lo hi l = some (l, []) := by
  simp only [matchHex]
  rw [tw_all hhex, if_pos hlo, Nat.min_eq_left hhi, List.take_length,
    List.drop_length]

theorem matchRegister_self {run : List Char}
    (h : ∀ c ∈ run, isHexGo c = true) :
    matchRegister ('r' :: run) = some ('r' :: run, []) := by
  simp only [matchRegister]
  rw [if_pos trivial, tw_all h, dw_all h]

theorem matchQuoted_none_of_head {c : Char} (rest : List Char)
    (h : c ≠ '"') : matchQuoted (c :: rest) = none := by
  simp only [matchQuoted]
  rw [if_neg h]

theorem matchQuoted_singleton (c : Char) : matchQuoted [c] = none := by
  by_cases h : c = '"'
  · subst h
    rfl
  · exact matchQuoted_none_of_head [] h

theorem matchMacroRef_none_head {a b : Char} (rest : List Char)
    (h : a ≠ '@') : matchMacroRef (a :: b :: rest) = none := by
  simp only [matchMacroRef]
  rw [if_neg (by simp [h])]

theorem matchIdent_cons2_none {c1 c2 : Char} (rest : List Char)
    (h : (isGoAlpha c1 && isTypoAlpha c2) = false) :
    matchIdent (c1 :: c2 :: rest) = none := by
  simp only [matchIdent]
  rw [if_neg (by simp [h])]

theorem matchIdent_cons2_none_inv {c1 c2 : Char} {rest : List Char}
    (h : matchIdent (c1 :: c2 :: rest) = none) :
    (isGoAlpha c1 && isTypoAlpha c2) = false := by
  simp only [matchIdent] at h
  split at h
  · cases h
  · rename_i hcond
    simpa using hcond

theorem matchRegister_none_head {a : Char} (rest : List Char)
    (h : a ≠ 'r') : matchRegister (a :: rest) = none := by
  simp only [matchRegister]
  rw [if_neg h]

theorem matchRegister_cons_none_inv {a : Char} {rest : List Char}
    (h : matchRegister (a :: rest) = none) : a ≠ 'r' := by
  intro he
  subst he
  simp [matchRegister] at h

theorem matchQuoted_some_inv {input m r : List Char}
    (h : matchQuoted input = some (m, r)) :
    ∃ inner, m = '"' :: inner ++ ['"'] ∧
      ∀ c ∈ inner, (c != '"') = true := by
  match input with
  | [] => simp [matchQuoted] at h
  | q :: rest =>
    simp only [matchQuoted] at h
    split at h
    · split at h
      · cases h
        exact ⟨rest.takeWhile (fun c => c != '"'), rfl,
          fun c hc => by simpa using List.mem_takeWhile_imp hc⟩
      · cases h
    · cases h

theorem matchMacroRef_some_inv {input m r : List Char}
    (h : matchMacroRef input = some (m, r)) :
    ∃ a run, m = '@' :: a :: run ∧ isGoAlpha a = true ∧
      ∀ c ∈ run, isMacroTail c = true := by
  match input with
  | [] => simp [matchMacroRef] at h
  | [c] => simp [matchMacroRef] at h
  | x :: y :: rest =>
    simp only [matchMacroRef] at h
    split at h
    · rename_i hcond
      simp only [Bool.and_eq_true, decide_eq_true_eq] at hcond
      cases h
      obtain ⟨hx, hy⟩ := hcond
      subst hx
      exact ⟨y, rest.takeWhile isMacroTail, rfl, hy,
        fun c hc => List.mem_takeWhile_imp hc⟩
    · cases h

theorem matchIdent_some_inv {input m r : List Char}
    (h : matchIdent input = some (m, r)) :
    ∃ c1 c2 run, m = c1 :: c2 :: run ∧
      (isGoAlpha c1 && isTypoAlpha c2) = true ∧
      ∀ c ∈ run, isIdentTail c = true := by
  match input with
  | [] => simp [matchIdent] at h
  | [c] => simp [matchIdent] at h
  | x :: y :: rest =>
    simp only [matchIdent] at h
    split at h
    · rename_i hcond
      cases h
      exact ⟨x, y, rest.takeWhile isIdentTail, rfl, hcond,
        fun c hc => List.mem_takeWhile_imp hc⟩
    · cases h

theorem matchHex_none_iff {lo hi : Nat} {input : List Char} :
    matchHex lo hi input = none ↔
      (input.takeWhile isHexGo).length < lo := by
  constructor
  · intro h
    simp only [matchHex] at h
    split at h
    · cases h
    · rename_i hL
      omega
  · intro h
    simp only [matchHex]
    rw [if_neg (by omega)]

theorem matchHex_prefix {lo hi : Nat} {input m r : List Char}
    (h : matchHex lo hi input = some (m, r)) : m ++ r = input := by
  simp only [matchHex] at h
  split at h
  · cases h
    exact List.take_append_drop _ input
  · cases h

theorem matchRegister_prefix {input m r : List Char}
    (h : matchRegister input = some (m, r)) : m ++ r = input := by
  match input with
  | [] => simp [matchRegister] at h
  | a :: rest =>
    simp only [matchRegister] at h
    split at h
    · cases h
      simp only [List.cons_append, List.cons.injEq, true_and]
      exact List.takeWhile_append_dropWhile isHexGo rest
    · cases h

/-! ### Which matcher fired: one equation per branch of the cascade -/

theorem stepTok_eq_q {s m r : List Char}
    (h1 : matchQuoted s = some (m, r)) : stepTok s = (⟨1, m⟩, r) := by
  unfold stepTok
  rw [h1]

theorem stepTok_eq_m {s m r : List Char} (h1 : matchQuoted s = none)
    (h2 : matchMacroRef s = some (m, r)) : stepTok s = (⟨7, m⟩, r) := by
  unfold stepTok
  rw [h1, h2]

theorem stepTok_eq_i {s m r : List Char} (h1 : matchQuoted s = none)
    (h2 : matchMacroRef s = none) (h3 : matchIdent s = some (m, r)) :
    stepTok s = (⟨0, m⟩, r) := by
  unfold stepTok
  rw [h1, h2, h3]

theorem stepTok_eq_h64 {s m r : List Char} (h1 : matchQuoted s = none)
    (h2 : matchMacroRef s = none) (h3 : matchIdent s = none)
    (h4 : matchHex 9 16 s = some (m, r)) : stepTok s = (⟨2, m⟩, r) := by
  unfold stepTok
  rw [h1, h2, h3, h4]

theorem stepTok_eq_h32 {s m r : List Char} (h1 : matchQuoted s = none)
    (h2 : matchMacroRef s = none) (h3 : matchIdent s = none)
    (h4 : matchHex 9 16 s = none) (h5 : matchHex 5 8 s = some (m, r)) :
    stepTok s = (⟨3, m⟩, r) := by
  unfold stepTok
  rw [h1, h2, h3, h4, h5]

theorem stepTok_eq_h16 {s m r : List Char} (h1 : matchQuoted s = none)
    (h2 : matchMacroRef s = none) (h3 : matchIdent s = none)
    (h4 : matchHex 9 16 s = none) (h5 : matchHex 5 8 s = none)
    (h6 : matchHex 3 4 s = some (m, r)) : stepTok s = (⟨4, m⟩, r) := by
  unfold stepTok
  rw [h1, h2, h3, h4, h5, h6]

theorem stepTok_eq_h8 {s m r : List Char} (h1 : matchQuoted s = none)
    (h2 : matchMacroRef s = none) (h3 : matchIdent s = none)
    (h4 : matchHex 9 16 s = none) (h5 : matchHex 5 8 s = none)
    (h6 : matchHex 3 4 s = none) (h7 : matchHex 1 2 s = some (m, r)) :
    stepTok s = (⟨5, m⟩, r) := by
  unfold stepTok
  rw [h1, h2, h3, h4, h5, h6, h7]

theorem stepTok_eq_r {s m r : List Char} (h1 : matchQuoted s = none)
    (h2 : matchMacroRef s = none) (h3 : matchIdent s = none)
    (h4 : matchHex 9 16 s = none) (h5 : matchHex 5 8 s = none)
    (h6 : matchHex 3 4 s = none) (h7 : matchHex 1 2 s = none)
    (h8 : matchRegister s = some (m, r)) : stepTok s = (⟨6, m⟩, r) := by
  unfold stepTok
  rw [h1, h2, h3, h4, h5, h6, h7, h8]

theorem stepTok_eq_u {c : Char} {rest : List Char}
    (h1 : matchQuoted (c :: rest) = none)
    (h2 : matchMacroRef (c :: rest) = none)
    (h3 : matchIdent (c :: rest) = none)
    (h4 : matchHex 9 16 (c :: rest) = none)
    (h5 : matchHex 5 8 (c :: rest) = none)
    (h6 : matchHex 3 4 (c :: rest) = none)
    (h7 : matchHex 1 2 (c :: rest) = none)
    (h8 : matchRegister (c :: rest) = none) :
    stepTok (c :: rest) = (⟨255, [c]⟩, rest) := by
  unfold stepTok
  rw [h1, h2, h3, h4, h5, h6, h7, h8]

theorem exists_cons2_of_two_le (l : List Char) (h : 2 ≤ l.length) :
    ∃ a b t, l = a :: b :: t := by
  match l with
  | [] => simp at h
  | [a] => simp at h
  | a :: b :: t => exact ⟨a, b, t, rfl⟩

/-- Stability: re-scanning the text of an emitted token in isolation
fires the same matcher, reproduces the same token, and consumes the whole
text. -/
theorem stepTok_stable (s : List Char) (hs : s ≠ []) :
    stepTok ((stepTok s).1.ValueReceived) = ((stepTok s).1, []) := by
  obtain ⟨c0, rest0, rfl⟩ : ∃ c0 rest0, s = c0 :: rest0 := by
    cases s with
    | nil => exact absurd rfl hs
    | cons c0 rest0 => exact ⟨c0, rest0, rfl⟩
  cases hq : matchQuoted (c0 :: rest0) with
  | some p =>
      obtain ⟨m, r⟩ := p
      rw [stepTok_eq_q hq]
      obtain ⟨inner, hm, hinner⟩ := matchQuoted_some_inv hq
      subst hm
      exact stepTok_eq_q (matchQuoted_self hinner)
  | none =>
  cases hmac : matchMacroRef (c0 :: rest0) with
  | some p =>
      obtain ⟨m, r⟩ := p
      rw [stepTok_eq_m hq hmac]
      obtain ⟨a, run, hm, ha, hrun⟩ := matchMacroRef_some_inv hmac
      subst hm
      exact stepTok_eq_m (matchQuoted_none_of_head _ (by decide))
        (matchMacroRef_self ha hrun)
  | none =>
  cases hid : matchIdent (c0 :: rest0) with
  | some p =>
      obtain ⟨m, r⟩ := p
      rw [stepTok_eq_i hq hmac hid]
      obtain ⟨c1, c2, run, hm, h12, hrun⟩ := matchIdent_some_inv hid
      subst hm
      have hc1 : isGoAlpha c1 = true := ((Bool.and_eq_true _ _).mp h12).1
      exact stepTok_eq_i
        (matchQuoted_none_of_head _ (goAlpha_ne hc1).1)
        (matchMacroRef_none_head _ (goAlpha_ne hc1).2)
        (matchIdent_self h12 hrun)
  | none =>
  cases h64 : matchHex 9 16 (c0 :: rest0) with
  | some p =>
      obtain ⟨m, r⟩ := p
      rw [stepTok_eq_h64 hq hmac hid h64]
      obtain ⟨hhex, hlo, hhi⟩ := matchHex_inv (by omega) h64
      have happ := matchHex_prefix h64
      obtain ⟨a, b, m2, rfl⟩ := exists_cons2_of_two_le m (by omega)
      have hah : isHexGo a = true := hhex a (by simp)
      have hident2 : matchIdent (a :: b :: m2) = none := by
        have hs2 : c0 :: rest0 = a :: b :: (m2 ++ r) := by
          rw [← happ]
          simp
        rw [hs2] at hid
        exact matchIdent_cons2_none m2 (matchIdent_cons2_none_inv hid)
      exact stepTok_eq_h64
        (matchQuoted_none_of_head _ (hexGo_ne hah).1)
        (matchMacroRef_none_head _ (hexGo_ne hah).2.1)
        hident2
        (matchHex_self hhex hlo hhi)
  | none =>
  cases h32 : matchHex 5 8 (c0 :: rest0) with
  | some p =>
      obtain ⟨m, r⟩ := p
      rw [stepTok_eq_h32 hq hmac hid h64 h32]
      obtain ⟨hhex, hlo, hhi⟩ := matchHex_inv (by omega) h32
      have happ := matchHex_prefix h32
      obtain ⟨a, b, m2, rfl⟩ := exists_cons2_of_two_le m (by omega)
      have hah : isHexGo a = true := hhex a (by simp)
      have hident2 : matchIdent (a :: b :: m2) = none := by
        have hs2 : c0 :: rest0 = a :: b :: (m2 ++ r) := by
          rw [← happ]
          simp
        rw [hs2] at hid
        exact matchIdent_cons2_none m2 (matchIdent_cons2_none_inv hid)
      have htw : (a :: b :: m2).takeWhile isHexGo = a :: b :: m2 :=
        tw_all hhex
      exact stepTok_eq_h32
        (matchQuoted_none_of_head _ (hexGo_ne hah).1)
        (matchMacroRef_none_head _ (hexGo_ne hah).2.1)
        hident2
        (matchHex_none_iff.mpr (by rw [htw]; omega))
        (matchHex_self hhex hlo hhi)
  | none =>
  cases h16 : matchHex 3 4 (c0 :: rest0) with
  | some p =>
      obtain ⟨m, r⟩ := p
      rw [stepTok_eq_h16 hq hmac hid h64 h32 h16]
      obtain ⟨hhex, hlo, hhi⟩ := matchHex_inv (by omega) h16
      have happ := matchHex_prefix h16
      obtain ⟨a, b, m2, rfl⟩ := exists_cons2_of_two_le m (by omega)
      have hah : isHexGo a = true := hhex a (by simp)
      have hident2 : matchIdent (a :: b :: m2) = none := by
        have hs2 : c0 :: rest0 = a :: b :: (m2 ++ r) := by
          rw [← happ]
          simp
        rw [hs2] at hid
        exact matchIdent_cons2_none m2 (matchIdent_cons2_none_inv hid)
      have htw : (a :: b :: m2).takeWhile isHexGo = a :: b :: m2 :=
        tw_all hhex
      exact stepTok_eq_h16
        (matchQuoted_none_of_head _ (hexGo_ne hah).1)
        (matchMacroRef_none_head _ (hexGo_ne hah).2.1)
        hident2
        (matchHex_none_iff.mpr (by rw [htw]; omega))
        (matchHex_none_iff.mpr (by rw [htw]; omega))
        (matchHex_self hhex hlo hhi)
  | none =>
  cases h8 : matchHex 1 2 (c0 :: rest0) with
  | some p =>
      obtain ⟨m, r⟩ := p
      rw [stepTok_eq_h8 hq hmac hid h64 h32 h16 h8]
      obtain ⟨hhex, hlo, hhi⟩ := matchHex_inv (by omega) h8
      have happ := matchHex_prefix h8
      have htw : m.takeWhile isHexGo = m := tw_all hhex
      match m, happ, hhex, hlo, hhi, htw with
      | [a], happ, hhex, hlo, hhi, htw =>
        have hah : isHexGo a = true := hhex a (by simp)
        exact stepTok_eq_h8
          (matchQuoted_none_of_head _ (hexGo_ne hah).1)
          rfl
          rfl
          (matchHex_none_iff.mpr (by rw [htw]; omega))
          (matchHex_none_iff.mpr (by rw [htw]; omega))
          (matchHex_none_iff.mpr (by rw [htw]; omega))
          (matchHex_self hhex hlo hhi)
      | a :: b :: m2, happ, hhex, hlo, hhi, htw =>
        have hah : isHexGo a = true := hhex a (by simp)
        have hident2 : matchIdent (a :: b :: m2) = none := by
          have hs2 : c0 :: rest0 = a :: b :: (m2 ++ r) := by
            rw [← happ]
            simp
          rw [hs2] at hid
          exact matchIdent_cons2_none m2 (matchIdent_cons2_none_inv hid)
        exact stepTok_eq_h8
          (matchQuoted_none_of_head _ (hexGo_ne hah).1)
          (matchMacroRef_none_head _ (hexGo_ne hah).2.1)
          hident2
          (matchHex_none_iff.mpr (by rw [htw]; omega))
          (matchHex_none_iff.mpr (by rw [htw]; omega))
          (matchHex_none_iff.mpr (by rw [htw]; omega))
          (matchHex_self hhex hlo hhi)
  | none =>
  cases hreg : matchRegister (c0 :: rest0) with
  | some p =>
      obtain ⟨m, r⟩ := p
      rw [stepTok_eq_r hq hmac hid h64 h32 h16 h8 hreg]
      obtain ⟨run, hm, hrun⟩ := matchRegister_inv hreg
      have happ := matchRegister_prefix hreg
      subst hm
      have htw : ('r' :: run).takeWhile isHexGo = [] := by
        rw [List.takeWhile_cons, if_neg (by decide)]
      have hmac2 : matchMacroRef ('r' :: run) = none := by
        cases run with
        | nil => rfl
        | cons d run2 => exact matchMacroRef_none_head run2 (by decide)
      have hid2 : matchIdent ('r' :: run) = none := by
        cases run with
        | nil => rfl
        | cons d run2 =>
            have hs2 : c0 :: rest0 = 'r' :: d :: (run2 ++ r) := by
              rw [← happ]
              simp
            rw [hs2] at hid
            exact matchIdent_cons2_none run2 (matchIdent_cons2_none_inv hid)
      exact stepTok_eq_r
        (matchQuoted_none_of_head _ (by decide))
        hmac2
        hid2
        (matchHex_none_iff.mpr (by rw [htw]; decide))
        (matchHex_none_iff.mpr (by rw [htw]; decide))
        (matchHex_none_iff.mpr (by rw [htw]; decide))
        (matchHex_none_iff.mpr (by rw [htw]; decide))
        (matchRegister_self hrun)
  | none =>
      rw [stepTok_eq_u hq hmac hid h64 h32 h16 h8 hreg]
      have hhexc : isHexGo c0 = false := by
        have hlen := matchHex_none_iff.mp h8
        rw [List.takeWhile_cons] at hlen
        by_cases hcx : isHexGo c0 = true
        · rw [if_pos hcx] at hlen
          simp at hlen
        · exact Bool.eq_false_iff.mpr hcx
      have htwc : ([c0].takeWhile isHexGo) = [] := by
        rw [List.takeWhile_cons, if_neg (by simp [hhexc])]
      exact stepTok_eq_u
        (matchQuoted_singleton c0)
        rfl
        rfl
        (matchHex_none_iff.mpr (by rw [htwc]; decide))
        (matchHex_none_iff.mpr (by rw [htwc]; decide))
        (matchHex_none_iff.mpr (by rw [htwc]; decide))
        (matchHex_none_iff.mpr (by rw [htwc]; decide))
        (matchRegister_none_head [] (matchRegister_cons_none_inv hreg))

/-- Claim C8, round trip: every token `Tokenize` emits, re-tokenized from
its exact text in isolation, yields a token list whose first token has the
same kind and the same text (in fact the whole list is that one token). -/
theorem C8_roundtrip (input : List Char) (t : Token)
    (h : t ∈ Tokenize input) :
    (Tokenize t.ValueReceived).head? =
      some ⟨t.TokType, t.ValueReceived⟩ := by
  obtain ⟨s, hs, hst⟩ := mem_tokenizeFuel input.length input t h
  subst hst
  have hstab := stepTok_stable s hs
  have hne : (stepTok s).1.ValueReceived ≠ [] := (stepTok_sound s hs).2
  obtain ⟨c, rest, hcr⟩ : ∃ c rest,
      (stepTok s).1.ValueReceived = c :: rest := by
    cases hv : (stepTok s).1.ValueReceived with
    | nil => exact absurd hv hne
    | cons c rest => exact ⟨c, rest, rfl⟩
  have hTok : Tokenize ((stepTok s).1.ValueReceived) = [(stepTok s).1] := by
    rw [Tokenize, hcr]
    simp only [List.length_cons, tokenizeFuel]
    rw [← hcr, hstab]
    cases hrl : rest.length <;> simp [tokenizeFuel]
  rw [hTok]
  rfl

/-- Witness for C8: the Register token "r10" emitted from "r10 mov"
re-tokenizes to itself. -/
theorem C8_witness :
    (Tokenize (("r10").toList)).head? = some ⟨6, ("r10").toList⟩ :=
  C8_roundtrip (("r10 mov").toList) ⟨6, ("r10").toList⟩ (by decide)

/-- Witness for the amended C7 at a well-typed integer object. -/
theorem C7_witness :
    GetBoolean ⟨1, .vint 5, ("d").toList⟩ =
      some (false, false, ("Mismatch object type").toList) :=
  (C7_accessors ⟨1, .vint 5, ("d").toList⟩ (by decide)).2.2.2.2.2 (by decide)

end TemplateParser

